import Mathlib

/-!
Shallow embedding of the branch-classification core of `gh-poi` (`poi.go`,
`query.go`) together with proofs about its behaviour.

External processes (git / gh invocations) are modelled by a `Conn` structure of
pure functions returning `Except Unit α`: `Except.error ()` stands for a failed
command.  The two JSON deserialization steps (`getRepo`, `toPullRequests`) are
folded into the corresponding connection fields, which return the already
decoded values; the spec treats wire-level JSON parsing as outside the core.
Line-oriented parsing (`splitLines`, `toBranch`, `extractBranchNames`, ...) is
translated directly from the Go source.
-/

deriving instance DecidableEq for Except

namespace GhPoi

/-- Embedding of `shared.BranchState` (values `Unknown`, `NotDeletable`, `Deletable`,
`Deleted`, in `iota` order). -/
inductive BranchState where
  | Unknown
  | NotDeletable
  | Deletable
  | Deleted
deriving DecidableEq, Repr

/-- Embedding of `shared.PullRequestState` (values `Closed`, `Merged`, `Open`). -/
inductive PullRequestState where
  | Closed
  | Merged
  | Open
deriving DecidableEq, Repr

/-- Embedding of `shared.PullRequest`: head-ref name, state, draft flag, number, the commit
oids the forge records for the PR, url and author. -/
structure PullRequest where
  Name : String
  State : PullRequestState
  IsDraft : Bool
  Number : Nat
  Commits : List String
  Url : String
  Author : String
deriving DecidableEq, Repr

/-- Embedding of `shared.Branch`: the per-branch record built by the classification
pipeline. -/
structure Branch where
  Head : Bool
  Name : String
  IsMerged : Bool
  IsProtected : Bool
  RemoteHeadOid : String
  Commits : List String
  PullRequests : List PullRequest
  State : BranchState
deriving DecidableEq, Repr

/-- Modelled from the spec: the `shared` package (absent from the sources here)
exposes `Branch.IsDetached`; a detached head is surfaced as the synthetic name
`"(HEAD detached at <7-hex-id>)"`, so detachedness is recognised by that
name shape. -/
def Branch.IsDetached (b : Branch) : Bool :=
  "(HEAD detached".toList.isPrefixOf b.Name.toList

/-- Embedding of `UncommittedChange` from `poi.go`: the two one-character status codes and
the path of a `git status` line. -/
structure UncommittedChange where
  X : String
  Y : String
  Path : String
deriving DecidableEq, Repr

/-- Embedding of `(uc *UncommittedChange) IsUntracked`: the change is untracked iff its `Y`
status code is `"?"`. -/
def UncommittedChange.IsUntracked (uc : UncommittedChange) : Bool :=
  uc.Y = "?"

/-- Embedding of `isFullyMerged` from `poi.go`: a PR counts as fully merged for a branch iff
its state is `Merged`, the branch has at least one retained commit, and the
first retained commit (`branch.Commits[0]`) occurs among the PR's commits. -/
def isFullyMerged (branch : Branch) (pr : PullRequest) : Bool :=
  if pr.State ≠ PullRequestState.Merged ∨ branch.Commits.length = 0 then
    false
  else
    let localHeadOid := branch.Commits.headD ""
    pr.Commits.any (fun oid => oid = localHeadOid)

/-- The `for` loop of `getDeleteStatus` over the branch's pull requests:
`none` means the loop returned early on an `Open` PR, `some c` gives the
number of fully merged PRs seen. -/
def countFullyMerged (branch : Branch) : List PullRequest → Option Nat
  | [] => some 0
  | pr :: rest =>
    if pr.State = PullRequestState.Open then
      none
    else
      match countFullyMerged branch rest with
      | none => none
      | some c => some (if isFullyMerged branch pr then c + 1 else c)

/-- Embedding of `getDeleteStatus` from `poi.go`: protected / head-with-tracked-changes /
no-PR / open-PR / no-fully-merged-PR checks, in source order. -/
def getDeleteStatus (branch : Branch) (uncommittedChanges : List UncommittedChange) :
    BranchState :=
  if branch.IsProtected then
    BranchState.NotDeletable
  else
    if branch.Head ∧ uncommittedChanges.any (fun c => ! c.IsUntracked) then
      BranchState.NotDeletable
    else if branch.PullRequests.length = 0 then
      BranchState.NotDeletable
    else
      match countFullyMerged branch branch.PullRequests with
      | none => BranchState.NotDeletable
      | some fullyMergedCnt =>
        if fullyMergedCnt = 0 then BranchState.NotDeletable
        else BranchState.Deletable

/-- The classification rule exactly as the spec words it (§4.3): a chain of
independently stated guards in priority order. -/
def getDeleteStatusSpec (branch : Branch) (uncommittedChanges : List UncommittedChange) :
    BranchState :=
  if branch.IsProtected then
    BranchState.NotDeletable
  else if branch.Head ∧ uncommittedChanges.any (fun c => c.Y ≠ "?") then
    BranchState.NotDeletable
  else if branch.PullRequests = [] then
    BranchState.NotDeletable
  else if branch.PullRequests.any (fun pr => pr.State = PullRequestState.Open) then
    BranchState.NotDeletable
  else if (branch.PullRequests.countP (fun pr => isFullyMerged branch pr)) = 0 then
    BranchState.NotDeletable
  else
    BranchState.Deletable

theorem countFullyMerged_eq (branch : Branch) (prs : List PullRequest) :
    countFullyMerged branch prs =
      if prs.any (fun pr => pr.State = PullRequestState.Open) then none
      else some (prs.countP (fun pr => isFullyMerged branch pr)) := by
  induction prs with
  | nil => simp [countFullyMerged]
  | cons pr rest ih =>
    by_cases hopen : pr.State = PullRequestState.Open
    · simp [countFullyMerged, hopen]
    · by_cases hrest : rest.any (fun pr => pr.State = PullRequestState.Open) = true
      · simp [countFullyMerged, hopen, ih, hrest]
      · by_cases hm : isFullyMerged branch pr = true
        · simp [countFullyMerged, hopen, ih, hrest, hm, List.countP_cons]
        · simp [countFullyMerged, hopen, ih, hrest, hm, List.countP_cons]

/-- C1: `getDeleteStatus` evaluates exactly the priority order of §4.3:
protected branches are never deletable; a head branch with a tracked
uncommitted change (`Y ≠ "?"`) is not deletable while untracked-only changes do
not block; an empty PR list, any open PR, or zero fully merged PRs each force
`NotDeletable`; otherwise the branch is `Deletable`. -/
theorem getDeleteStatus_eq_spec (branch : Branch) (uncommittedChanges : List UncommittedChange) :
    getDeleteStatus branch uncommittedChanges = getDeleteStatusSpec branch uncommittedChanges := by
  unfold getDeleteStatus getDeleteStatusSpec
  rw [countFullyMerged_eq]
  have huc : (uncommittedChanges.any fun c => !c.IsUntracked) =
      (uncommittedChanges.any fun c => decide (c.Y ≠ "?")) := by
    congr 1
    funext c
    simp [UncommittedChange.IsUntracked, decide_not]
  rw [huc]
  simp only [List.length_eq_zero]
  by_cases hp : branch.IsProtected = true
  · rw [if_pos hp, if_pos hp]
  · rw [if_neg hp, if_neg hp]
    by_cases hh : branch.Head = true ∧
        (uncommittedChanges.any fun c => decide (c.Y ≠ "?")) = true
    · rw [if_pos hh, if_pos hh]
    · rw [if_neg hh, if_neg hh]
      by_cases he : branch.PullRequests = []
      · rw [if_pos he, if_pos he]
      · rw [if_neg he, if_neg he]
        by_cases hopen : (branch.PullRequests.any fun pr =>
            decide (pr.State = PullRequestState.Open)) = true
        · rw [if_pos hopen, if_pos hopen]
        · rw [if_neg hopen, if_neg hopen]

/-- C2: a PR is classified fully merged for a branch iff its state is `Merged`
and the branch's first retained commit exists and belongs to the PR's commit
set; in particular a branch with an empty `Commits` list has no fully merged
PR. -/
theorem isFullyMerged_iff (branch : Branch) (pr : PullRequest) :
    (isFullyMerged branch pr = true ↔
      pr.State = PullRequestState.Merged ∧
        ∃ h, branch.Commits.head? = some h ∧ h ∈ pr.Commits) ∧
    (branch.Commits = [] → isFullyMerged branch pr = false) := by
  constructor
  · unfold isFullyMerged
    by_cases hs : pr.State = PullRequestState.Merged
    · cases hcs : branch.Commits with
      | nil => simp [hcs, hs]
      | cons c cs => simp [hcs, hs]
    · simp [hs]
  · intro hc
    simp [isFullyMerged, hc]

/-- Character-level model of `strings.Replace(text, "\r\n", "\n", -1)`. -/
def replaceCRLF : List Char → List Char
  | '\r' :: '\n' :: cs => '\n' :: replaceCRLF cs
  | c :: cs => c :: replaceCRLF cs
  | [] => []

/-- Split a character list at every character satisfying `p`, keeping empty
groups (the semantics of splitting a string at separator characters). -/
def splitChars (p : Char → Bool) : List Char → List (List Char)
  | [] => [[]]
  | c :: cs =>
    match splitChars p cs with
    | [] => [[]]
    | g :: gs => if p c then [] :: g :: gs else (c :: g) :: gs

/-- Embedding of `splitLines` from `poi.go`: normalise `"\r\n"` to `"\n"` and split on
newlines, dropping empty fields (`strings.FieldsFunc`). -/
def splitLines (text : String) : List String :=
  ((splitChars (fun c => c = '\n') (replaceCRLF text.toList)).map
    (fun l => String.mk l)).filter (fun s => s ≠ "")

/-- Scan for the first `'/'` and return what follows it (`none` when there is
no `'/'`).  Helper for the non-greedy `remotes/.+?/` part of the
`extractBranchNames` regular expression. -/
def dropThroughSlash : List Char → Option (List Char)
  | [] => none
  | '/' :: cs => some cs
  | _ :: cs => dropThroughSlash cs

/-- The single anchored replacement performed by `extractBranchNames` on one
ref name: strip a leading `refs/heads/`, or a leading `refs/remotes/<seg>/`
where `<seg>` is the shortest non-empty run of characters before a `'/'`
(the regex `^refs/(?:heads|remotes/.+?)/`). -/
def stripRefName (s : String) : String :=
  let cs := s.toList
  if "refs/heads/".toList.isPrefixOf cs then String.mk (cs.drop 11)
  else if "refs/remotes/".toList.isPrefixOf cs then
    match cs.drop 13 with
    | [] => s
    | _ :: rest =>
      match dropThroughSlash rest with
      | some r => String.mk r
      | none => s
  else s

/-- Embedding of `extractBranchNames` from `poi.go`: strip the heads / remote-tracking
namespace from every associated ref name. -/
def extractBranchNames (refNames : List String) : List String :=
  refNames.map stripRefName

/-- The `i == 0` loop body of `trimBranch`: walk the associated names of the
first commit, returning `none` as soon as one equals the default branch name
(the Go code returns an empty commit list there), and otherwise appending
every name other than the branch's own to the sibling (`childNames`) list. -/
def registerChildren (defaultBranchName branchName : String) :
    List String → List String → Option (List String)
  | childNames, [] => some childNames
  | childNames, name :: rest =>
    if name = defaultBranchName then none
    else if name ≠ branchName then
      registerChildren defaultBranchName branchName (childNames ++ [name]) rest
    else
      registerChildren defaultBranchName branchName childNames rest

/-- The loop of `trimBranch` from `poi.go`, carrying the loop index `i`, the
sibling names and the accumulated results.  The second component of the value
counts the `GetAssociatedRefNames` calls performed (instrumentation; the Go
code has no counter). -/
def trimBranchAux (lookup : String → Except Unit String) (remoteHeadOid : String)
    (isMerged : Bool) (branchName defaultBranchName : String) :
    Nat → List String → List String → List String → Except Unit (List String) × Nat
  | _, _, results, [] => (Except.ok results, 0)
  | i, childNames, results, oid :: rest =>
    if 0 < remoteHeadOid.length ∨ isMerged then (Except.ok (results ++ [oid]), 0)
    else
      match lookup oid with
      | Except.error _ => (Except.error (), 1)
      | Except.ok refNames =>
        let names := extractBranchNames (splitLines refNames)
        match (if i = 0 then registerChildren defaultBranchName branchName childNames names
               else some childNames) with
        | none => (Except.ok [], 1)
        | some childNames2 =>
          if names.any (fun name => (name != branchName) && ! childNames2.contains name) then
            (Except.ok results, 1)
          else
            let r := trimBranchAux lookup remoteHeadOid isMerged branchName defaultBranchName
              (i + 1) childNames2 (results ++ [oid]) rest
            (r.1, r.2 + 1)

/-- Embedding of `trimBranch` from `poi.go`.  `lookup` stands for
`connection.GetAssociatedRefNames` (raw multi-line output, or a command
failure); the `Nat` component counts how many lookups were performed. -/
def trimBranch (lookup : String → Except Unit String) (oids : List String)
    (remoteHeadOid : String) (isMerged : Bool) (branchName defaultBranchName : String) :
    Except Unit (List String) × Nat :=
  trimBranchAux lookup remoteHeadOid isMerged branchName defaultBranchName 0 [] [] oids

/-- C3 (amended): when the remote head oid is known (non-empty) or the merged
flag is set, `trimBranch` performs no ref-association lookups and returns the
first (newest) log entry as a single-element list — the empty list when the
input log is itself empty. -/
theorem trimBranch_caughtUp (lookup : String → Except Unit String) (oids : List String)
    (remoteHeadOid : String) (isMerged : Bool) (branchName defaultBranchName : String)
    (h : remoteHeadOid ≠ "" ∨ isMerged = true) :
    trimBranch lookup oids remoteHeadOid isMerged branchName defaultBranchName =
      (Except.ok (oids.take 1), 0) := by
  cases oids with
  | nil => rfl
  | cons o os =>
    have hguard : 0 < remoteHeadOid.length ∨ isMerged = true := by
      rcases h with h | h
      · left
        cases remoteHeadOid with
        | mk data =>
          cases data with
          | nil => exact absurd rfl h
          | cons c cs => simp [String.length]
      · right; exact h
    rw [trimBranch, trimBranchAux, if_pos hguard]
    simp

/-- Witness for C3 at a concrete caught-up branch. -/
theorem trimBranch_caughtUp_witness :
    trimBranch (fun _ => Except.ok "") ["o2", "o1"] "a97e963" false "issue1" "main" =
      (Except.ok ["o2"], 0) :=
  trimBranch_caughtUp (fun _ => Except.ok "") ["o2", "o1"] "a97e963" false "issue1" "main"
    (Or.inl (by decide))

/-- Counterexample to C3 as stated: with an empty input log and a known remote
head oid, `trimBranch` returns the empty list, not a one-element list. -/
theorem trimBranch_caughtUp_counterexample :
    (trimBranch (fun _ => Except.ok "") [] "a97e963" false "issue1" "main").1 =
        Except.ok ([] : List String) ∧
      ¬ ∃ l : List String, (trimBranch (fun _ => Except.ok "") [] "a97e963" false
          "issue1" "main").1 = Except.ok l ∧ l.length = 1 := by
  constructor
  · rfl
  · rintro ⟨l, hl, hlen⟩
    have : l = [] := by
      have h0 : (trimBranch (fun _ => Except.ok "") [] "a97e963" false "issue1" "main").1 =
          Except.ok ([] : List String) := rfl
      rw [h0] at hl
      exact (Except.ok.injEq _ _).mp hl.symm
    rw [this] at hlen
    simp at hlen

/-- The ancestry walk over the commits after the first one, as the spec words
it (§4.1): stop (returning nothing further) when a commit has an associated
name that is neither the branch's own nor a registered sibling, otherwise
accumulate the commit; a failing ref lookup fails the walk. -/
def walkLaterSpec (lookup : String → Except Unit String) (branchName : String)
    (childNames : List String) : List String → Except Unit (List String)
  | [] => Except.ok []
  | oid :: rest =>
    match lookup oid with
    | Except.error _ => Except.error ()
    | Except.ok refNames =>
      let names := extractBranchNames (splitLines refNames)
      if names.any (fun name => (name != branchName) && ! childNames.contains name) then
        Except.ok []
      else
        match walkLaterSpec lookup branchName childNames rest with
        | Except.error _ => Except.error ()
        | Except.ok tl => Except.ok (oid :: tl)

/-- The whole not-caught-up ancestry walk as the spec words it (§4.1): empty
log gives an empty result; if the first commit carries the default branch name
the result is empty; otherwise the first commit's other names become siblings,
the first commit is kept, and the walk continues over the remaining
commits. -/
def trimBranchSpec (lookup : String → Except Unit String) (oids : List String)
    (branchName defaultBranchName : String) : Except Unit (List String) :=
  match oids with
  | [] => Except.ok []
  | first :: rest =>
    match lookup first with
    | Except.error _ => Except.error ()
    | Except.ok refNames =>
      let names := extractBranchNames (splitLines refNames)
      if names.contains defaultBranchName then Except.ok []
      else
        match walkLaterSpec lookup branchName (names.filter (fun n => n != branchName)) rest with
        | Except.error _ => Except.error ()
        | Except.ok tl => Except.ok (first :: tl)

theorem registerChildren_eq (defaultBranchName branchName : String)
    (childNames names : List String) :
    registerChildren defaultBranchName branchName childNames names =
      if defaultBranchName ∈ names then none
      else some (childNames ++ names.filter (fun n => n != branchName)) := by
  induction names generalizing childNames with
  | nil => simp [registerChildren]
  | cons n ns ih =>
    by_cases hd : n = defaultBranchName
    · simp [registerChildren, hd]
    · have hd' : ¬ defaultBranchName = n := fun h => hd h.symm
      by_cases hb : n ≠ branchName
      · rw [registerChildren, if_neg hd, if_pos hb, ih]
        by_cases hdm : defaultBranchName ∈ ns
        · simp [hdm, List.mem_cons, hd']
        · simp [hdm, List.mem_cons, hd', List.filter_cons, hb]
      · rw [registerChildren, if_neg hd, if_neg hb, ih]
        push_neg at hb
        have hd'' : ¬ defaultBranchName = branchName := hb ▸ hd'
        by_cases hdm : defaultBranchName ∈ ns
        · simp [hdm, List.mem_cons, hd']
        · simp [hdm, List.mem_cons, hd', hd'', List.filter_cons, hb]

theorem trimBranchAux_pos_eq_walk (lookup : String → Except Unit String)
    (branchName defaultBranchName : String) (rest : List String) :
    ∀ (i : Nat), i ≠ 0 → ∀ (childNames acc : List String),
      (trimBranchAux lookup "" false branchName defaultBranchName i
        childNames acc rest).1 =
        match walkLaterSpec lookup branchName childNames rest with
        | Except.error _ => Except.error ()
        | Except.ok tl => Except.ok (acc ++ tl) := by
  induction rest with
  | nil => intro i hi childNames acc; simp [trimBranchAux, walkLaterSpec]
  | cons oid rest ih =>
    intro i hi childNames acc
    rw [trimBranchAux, walkLaterSpec]
    have hguard : ¬ (0 < ("" : String).length ∨ false = true) := by decide
    rw [if_neg hguard]
    cases lookup oid with
    | error e => rfl
    | ok refNames =>
      dsimp only
      rw [if_neg hi]
      by_cases hstop : ∃ x ∈ extractBranchNames (splitLines refNames),
          ¬x = branchName ∧ x ∉ childNames
      · simp [hstop]
      · simp [hstop]
        rw [ih (i + 1) (by omega) childNames (acc ++ [oid])]
        cases walkLaterSpec lookup branchName childNames rest with
        | error e => rfl
        | ok tl => simp

/-- C4: for a branch with no known remote head oid and merged flag unset,
`trimBranch` computes exactly the walk the spec describes: empty result when
the first commit carries the default branch name; the first commit's other
associated names (branch's own excluded) become siblings; a later commit with
a name that is neither the branch's own nor a sibling stops the walk with the
commits accumulated so far; otherwise commits are accumulated in order. -/
theorem trimBranch_walk_eq_spec (lookup : String → Except Unit String)
    (oids : List String) (branchName defaultBranchName : String) :
    (trimBranch lookup oids "" false branchName defaultBranchName).1 =
      trimBranchSpec lookup oids branchName defaultBranchName := by
  cases oids with
  | nil => rfl
  | cons first rest =>
    rw [trimBranch, trimBranchAux, trimBranchSpec]
    have hguard : ¬ (0 < ("" : String).length ∨ false = true) := by decide
    rw [if_neg hguard]
    cases lookup first with
    | error e => rfl
    | ok refNames =>
      dsimp only
      rw [if_pos rfl, registerChildren_eq]
      by_cases hdef : defaultBranchName ∈ extractBranchNames (splitLines refNames)
      · simp [hdef]
      · have hstop : ¬ ∃ x ∈ extractBranchNames (splitLines refNames), ¬x = branchName ∧
            (x ∉ extractBranchNames (splitLines refNames) ∨ x = branchName) := by
          rintro ⟨x, hx, hxb, h⟩
          rcases h with h | h
          · exact h hx
          · exact hxb h
        simp [hdef, hstop]
        rw [trimBranchAux_pos_eq_walk lookup branchName defaultBranchName rest 1 (by omega)
          ((extractBranchNames (splitLines refNames)).filter (fun n => n != branchName)) [first]]
        cases walkLaterSpec lookup branchName
            ((extractBranchNames (splitLines refNames)).filter (fun n => n != branchName)) rest with
        | error e => rfl
        | ok tl => simp

/-- The `Connection` interface of `poi.go`, as a record of pure functions;
`Except.error ()` models a failed external command.  The JSON-decoding steps
`getRepo` and `toPullRequests` are folded into `GetRepoNames` and
`GetPullRequests`, which return the decoded values directly (the spec places
wire-level JSON parsing outside the core).  `GetRepoNames` takes hostname and
repo name; `GetPullRequests` takes hostname, org filter, repo filter and query
hashes. -/
structure Conn where
  CheckRepos : String → List String → Except Unit Unit
  GetRepoNames : String → String → Except Unit (List String × String)
  GetBranchNames : Except Unit String
  GetMergedBranchNames : String → String → Except Unit String
  GetRemoteHeadOid : String → String → Except Unit String
  GetLsRemoteHeadOid : String → String → Except Unit String
  GetLog : String → Except Unit String
  GetAssociatedRefNames : String → Except Unit String
  GetPullRequests : String → String → String → String → Except Unit (List PullRequest)
  GetUncommittedChanges : Except Unit String
  GetConfig : String → Except Unit String
  CheckoutBranch : String → Except Unit String
  DeleteBranches : List String → Except Unit String

/-- Embedding of `Remote` from `poi.go`. -/
structure Remote where
  Name : String
  Hostname : String
  RepoName : String

/-- The value a swallowed-error call yields: the Go code ignores the error and
uses the returned string, which is `""` for a failed command (`run` returns an
empty string on failure). -/
def orEmpty : Except Unit String → String
  | Except.ok s => s
  | Except.error _ => ""

/-- Embedding of `toBranch` from `poi.go`: parse `git branch --format=%(HEAD):%(refname)`
lines.  The Go code indexes `splitNames[1]` and would panic on a line without
`':'`; that case is modelled with an empty name and is never exercised by the
claims. -/
def toBranch (branchNames : List String) : List Branch :=
  branchNames.map (fun branchName =>
    let splitNames := (splitChars (fun c => c = ':') branchName.toList).map
      (fun l => String.mk l)
    { Head := splitNames.headD "" = "*"
      Name := splitNames.getD 1 ""
      IsMerged := false
      IsProtected := false
      RemoteHeadOid := ""
      Commits := []
      PullRequests := []
      State := BranchState.Unknown })

/-- Embedding of `getBranchNames` from `poi.go` (the helper over a branch list, distinct
from the connection call of the same name): the names of the branches in the
given state. -/
def getBranchNames (branches : List Branch) (state : BranchState) : List String :=
  (branches.filter (fun b => b.State = state)).map (fun b => b.Name)

/-- Embedding of `branchNameExists` from `poi.go`. -/
def branchNameExists (branchName : String) (branches : List Branch) : Bool :=
  branches.any (fun b => b.Name = branchName)

/-- Embedding of `nameExists` from `poi.go`. -/
def nameExists (name : String) (names : List String) : Bool :=
  names.any (fun n => n = name)

/-- Embedding of `checkDeleted` from `poi.go`: an originally `Deletable` branch becomes
`Deleted` when its name no longer appears in the re-read listing. -/
def checkDeleted (branchesBefore branchesAfter : List Branch) : List Branch :=
  branchesBefore.map (fun branch =>
    if branch.State = BranchState.Deletable then
      if ! branchNameExists branch.Name branchesAfter then
        { branch with State := BranchState.Deleted }
      else branch
    else branch)

/-- Embedding of `DeleteBranches` from `poi.go`: collect the `Deletable` names, return the
input unchanged when there are none, otherwise issue the batched delete (its
result and error are discarded), re-read the branch listing and mark deleted
branches. -/
def DeleteBranches (branches : List Branch) (conn : Conn) : Except Unit (List Branch) :=
  let branchNames := getBranchNames branches BranchState.Deletable
  if branchNames.length = 0 then Except.ok branches
  else
    let _ := conn.DeleteBranches branchNames
    match conn.GetBranchNames with
    | Except.error e => Except.error e
    | Except.ok branchNamesAfter =>
      Except.ok (checkDeleted branches (toBranch (splitLines branchNamesAfter)))

theorem checkDeleted_eq_map (branchesBefore branchesAfter : List Branch) :
    checkDeleted branchesBefore branchesAfter = branchesBefore.map (fun b =>
      if b.State = BranchState.Deletable ∧ branchNameExists b.Name branchesAfter = false then
        { b with State := BranchState.Deleted }
      else b) := by
  unfold checkDeleted
  apply List.map_congr_left
  intro b _
  by_cases hs : b.State = BranchState.Deletable
  · by_cases he : branchNameExists b.Name branchesAfter = false
    · simp [hs, he]
    · have he' : branchNameExists b.Name branchesAfter = true := by
        simpa using he
      simp [hs, he']
  · simp [hs]

theorem getBranchNames_nil_of_no_state (branches : List Branch) (state : BranchState)
    (h : ∀ b ∈ branches, b.State ≠ state) :
    getBranchNames branches state = [] := by
  unfold getBranchNames
  rw [List.filter_eq_nil_iff.mpr (by intro b hb; simpa using h b hb)]
  rfl

theorem no_state_of_getBranchNames_nil (branches : List Branch) (state : BranchState)
    (h : (getBranchNames branches state).length = 0) :
    ∀ b ∈ branches, b.State ≠ state := by
  intro b hb hs
  have : b.Name ∈ getBranchNames branches state := by
    unfold getBranchNames
    exact List.mem_map_of_mem _ (List.mem_filter.mpr ⟨hb, by simp [hs]⟩)
  rw [List.length_eq_zero.mp h] at this
  simp at this

/-- C8: `DeleteBranches` returns its input unchanged when no branch is
`Deletable`; otherwise, when the re-read listing is available, every
originally-`Deletable` branch whose name is absent from that listing comes
back with state `Deleted`, one still present stays `Deletable`, and every
other branch is returned with all fields unchanged. -/
theorem DeleteBranches_spec (branches : List Branch) (conn : Conn) :
    ((∀ b ∈ branches, b.State ≠ BranchState.Deletable) →
      DeleteBranches branches conn = Except.ok branches) ∧
    (∀ s, conn.GetBranchNames = Except.ok s →
      DeleteBranches branches conn = Except.ok (branches.map (fun b =>
        if b.State = BranchState.Deletable ∧
            branchNameExists b.Name (toBranch (splitLines s)) = false then
          { b with State := BranchState.Deleted }
        else b))) := by
  constructor
  · intro h
    unfold DeleteBranches
    rw [if_pos (by rw [getBranchNames_nil_of_no_state branches _ h]; rfl)]
  · intro s hs
    unfold DeleteBranches
    by_cases hlen : (getBranchNames branches BranchState.Deletable).length = 0
    · rw [if_pos hlen]
      have hnone := no_state_of_getBranchNames_nil branches BranchState.Deletable hlen
      have hmap : branches.map (fun b =>
          if b.State = BranchState.Deletable ∧
              branchNameExists b.Name (toBranch (splitLines s)) = false then
            { b with State := BranchState.Deleted }
          else b) = branches := by
        conv_rhs => rw [← List.map_id branches]
        apply List.map_congr_left
        intro b hb
        simp [hnone b hb]
      rw [hmap]
    · rw [if_neg hlen, hs]
      dsimp only
      rw [checkDeleted_eq_map]

/-- C10: the batched delete call's result and error are entirely discarded by
`DeleteBranches` — the returned value does not depend on the delete field at
all, and the only error `DeleteBranches` can return is the one from re-reading
the branch listing afterwards. -/
theorem DeleteBranches_delete_errors_ignored (branches : List Branch) (conn : Conn)
    (del : List String → Except Unit String) :
    DeleteBranches branches { conn with DeleteBranches := del } =
        DeleteBranches branches conn ∧
      (∀ e, DeleteBranches branches conn = Except.error e →
        conn.GetBranchNames = Except.error e) := by
  constructor
  · unfold DeleteBranches
    rfl
  · intro e
    unfold DeleteBranches
    by_cases hlen : (getBranchNames branches BranchState.Deletable).length = 0
    · rw [if_pos hlen]
      intro h
      exact absurd h (by simp)
    · rw [if_neg hlen]
      cases hb : conn.GetBranchNames with
      | error e' => simp [hb]
      | ok s => simp [hb]

/-- A deletable branch used by concrete witnesses. -/
def brIssue1 : Branch :=
  { Head := false, Name := "issue1", IsMerged := true, IsProtected := false,
    RemoteHeadOid := "", Commits := ["a1"], PullRequests := [],
    State := BranchState.Deletable }

/-- A kept head branch used by concrete witnesses. -/
def brMain : Branch :=
  { Head := true, Name := "main", IsMerged := true, IsProtected := false,
    RemoteHeadOid := "", Commits := [], PullRequests := [],
    State := BranchState.NotDeletable }

/-- A fully succeeding connection stub whose live branch listing contains only
`main`. -/
def connC8 : Conn where
  CheckRepos := fun _ _ => Except.ok ()
  GetRepoNames := fun _ _ => Except.ok (["owner/repo"], "main")
  GetBranchNames := Except.ok "*:main"
  GetMergedBranchNames := fun _ _ => Except.ok ""
  GetRemoteHeadOid := fun _ _ => Except.ok ""
  GetLsRemoteHeadOid := fun _ _ => Except.ok ""
  GetLog := fun _ => Except.ok ""
  GetAssociatedRefNames := fun _ => Except.ok ""
  GetPullRequests := fun _ _ _ _ => Except.ok []
  GetUncommittedChanges := Except.ok ""
  GetConfig := fun _ => Except.ok ""
  CheckoutBranch := fun _ => Except.ok ""
  DeleteBranches := fun _ => Except.ok ""

/-- Witness for C8: deleting `issue1` (absent from the re-read listing) marks
it `Deleted` while `main` is returned unchanged. -/
theorem DeleteBranches_spec_witness :
    connC8.GetBranchNames = Except.ok "*:main" ∧
      DeleteBranches [brIssue1, brMain] connC8 =
        Except.ok [{ brIssue1 with State := BranchState.Deleted }, brMain] := by
  refine ⟨rfl, ?_⟩
  have h := (DeleteBranches_spec [brIssue1, brMain] connC8).2 "*:main" rfl
  rw [h]
  decide

/-- Witness for C10 at concrete connections: a failing delete command changes
nothing, and the error case is exactly a failing re-read. -/
theorem DeleteBranches_delete_errors_ignored_witness :
    (DeleteBranches [brIssue1, brMain]
        { connC8 with DeleteBranches := fun _ => Except.error () } =
      DeleteBranches [brIssue1, brMain] connC8) ∧
      ({ connC8 with GetBranchNames := Except.error () } : Conn).GetBranchNames =
        Except.error () :=
  ⟨(DeleteBranches_delete_errors_ignored [brIssue1, brMain] connC8
      (fun _ => Except.error ())).1,
   (DeleteBranches_delete_errors_ignored [brIssue1, brMain]
      { connC8 with GetBranchNames := Except.error () } (fun _ => Except.ok "")).2 ()
      (by decide)⟩

/-- Drop leading and trailing spaces (`strings.TrimSpace`; the query builders
only ever produce plain spaces). -/
def trimSpace (s : String) : String :=
  String.mk (((s.toList.dropWhile (fun c => c = ' ')).reverse.dropWhile
    (fun c => c = ' ')).reverse)

/-- Embedding of `strings.Split(name, "/")[0]`: the segment before the first slash. -/
def firstSegment (name : String) : String :=
  String.mk (name.toList.takeWhile (fun c => c ≠ '/'))

/-- Embedding of `getQueryOrgs` from `query.go`. -/
def getQueryOrgs (repoNames : List String) : String :=
  trimSpace (repoNames.foldl (fun acc name => acc ++ "org:" ++ firstSegment name ++ " ") "")

/-- Embedding of `getQueryRepos` from `query.go`. -/
def getQueryRepos (repoNames : List String) : String :=
  trimSpace (repoNames.foldl (fun acc name => acc ++ "repo:" ++ name ++ " ") "")

/-- The `oid` local of `getQueryHashes`: the remote head oid when known,
otherwise the last (oldest) trimmed commit. -/
def queryOid (b : Branch) : String :=
  if b.RemoteHeadOid = "" then b.Commits.getLastD "" else b.RemoteHeadOid

/-- The loop of `getQueryHashes` from `query.go`, carrying the emitted blocks
and the current block under construction.  A branch with no remote head oid
and no trimmed commits is skipped; the separator is empty exactly for the last
branch of the input list; a block is flushed when appending the next filter
would push it past 256 characters. -/
def gqhAux (acc : List String) (cur : String) : List Branch → List String × String
  | [] => (acc, cur)
  | b :: rest =>
    if b.RemoteHeadOid = "" ∧ b.Commits = [] then gqhAux acc cur rest
    else
      let separator := if rest.isEmpty then "" else " "
      let hash := "hash:" ++ queryOid b ++ separator
      if 256 < cur.length + hash.length then gqhAux (acc ++ [cur]) hash rest
      else gqhAux acc (cur ++ hash) rest

/-- Embedding of `getQueryHashes` from `query.go`: the emitted blocks, with the trailing
partial block appended when non-empty. -/
def getQueryHashes (branches : List Branch) : List String :=
  let r := gqhAux [] "" branches
  if 0 < r.2.length then r.1 ++ [r.2] else r.1

theorem gqhAux_bound (branches : List Branch)
    (h : ∀ b ∈ branches, (queryOid b).length + 6 ≤ 256) :
    ∀ (acc : List String) (cur : String), (∀ x ∈ acc, x.length ≤ 256) →
      cur.length ≤ 256 →
      (∀ x ∈ (gqhAux acc cur branches).1, x.length ≤ 256) ∧
        (gqhAux acc cur branches).2.length ≤ 256 := by
  induction branches with
  | nil => intro acc cur hacc hcur; exact ⟨hacc, hcur⟩
  | cons b rest ih =>
    intro acc cur hacc hcur
    have hrest : ∀ x ∈ rest, (queryOid x).length + 6 ≤ 256 := by
      intro x hx; exact h x (List.mem_cons_of_mem b hx)
    by_cases hskip : b.RemoteHeadOid = "" ∧ b.Commits = []
    · rw [gqhAux, if_pos hskip]
      exact ih hrest acc cur hacc hcur
    · rw [gqhAux, if_neg hskip]
      have hsep : (if rest.isEmpty then "" else " ").length ≤ 1 := by
        by_cases hr : rest.isEmpty = true
        · rw [if_pos hr]; decide
        · rw [if_neg hr]; decide
      have hhash : ("hash:" ++ queryOid b ++
          (if rest.isEmpty then "" else " ")).length ≤ 256 := by
        rw [String.length_append, String.length_append]
        have hb := h b (List.mem_cons_self b rest)
        have h5 : ("hash:" : String).length = 5 := by decide
        omega
      by_cases hflush : 256 < cur.length + ("hash:" ++ queryOid b ++
          (if rest.isEmpty then "" else " ")).length
      · rw [if_pos hflush]
        refine ih hrest _ _ ?_ hhash
        intro x hx
        rcases List.mem_append.mp hx with hx | hx
        · exact hacc x hx
        · rw [List.mem_singleton.mp hx]; exact hcur
      · rw [if_neg hflush]
        refine ih hrest _ _ hacc ?_
        rw [String.length_append]
        omega

/-- C9: when every individual `hash:` filter (with its separator) fits in 256
characters, every block `getQueryHashes` emits has length at most 256; and a
branch with neither a remote head oid nor trimmed commits contributes nothing
to the loop state. -/
theorem getQueryHashes_spec (branches : List Branch)
    (h : ∀ b ∈ branches, (queryOid b).length + 6 ≤ 256) :
    (∀ block ∈ getQueryHashes branches, block.length ≤ 256) ∧
    (∀ (acc : List String) (cur : String) (b : Branch) (rest : List Branch),
      b.RemoteHeadOid = "" → b.Commits = [] →
      gqhAux acc cur (b :: rest) = gqhAux acc cur rest) := by
  constructor
  · intro block hblock
    have hmain := gqhAux_bound branches h [] "" (by intro x hx; simp at hx) (by decide)
    unfold getQueryHashes at hblock
    by_cases hp : 0 < (gqhAux [] "" branches).2.length
    · rw [if_pos hp] at hblock
      rcases List.mem_append.mp hblock with hb | hb
      · exact hmain.1 block hb
      · rw [List.mem_singleton.mp hb]; exact hmain.2
    · rw [if_neg hp] at hblock
      exact hmain.1 block hblock
  · intro acc cur b rest h1 h2
    rw [gqhAux, if_pos ⟨h1, h2⟩]

/-- A branch that contributes a `hash:` filter, for the C9 witness. -/
def brHashA : Branch :=
  { Head := false, Name := "feature", IsMerged := false, IsProtected := false,
    RemoteHeadOid := "abc123", Commits := [], PullRequests := [],
    State := BranchState.Unknown }

/-- A branch that contributes no filter, for the C9 witness. -/
def brHashSkip : Branch :=
  { Head := false, Name := "empty", IsMerged := false, IsProtected := false,
    RemoteHeadOid := "", Commits := [], PullRequests := [],
    State := BranchState.Unknown }

/-- Witness for C9 at a concrete branch list. -/
theorem getQueryHashes_spec_witness :
    (∀ block ∈ getQueryHashes [brHashSkip, brHashA], block.length ≤ 256) ∧
      gqhAux [] "" (brHashSkip :: [brHashA]) = gqhAux [] "" [brHashA] :=
  ⟨(getQueryHashes_spec [brHashSkip, brHashA] (by decide)).1,
   (getQueryHashes_spec [brHashSkip, brHashA] (by decide)).2 [] "" brHashSkip [brHashA]
      rfl rfl⟩

/-- The minimal entry `switchToDefaultBranchIfDeleted` synthesizes for an
absent default branch (`shared.Branch{}` zero value with `Head`, `Name` and
`State` set). -/
def defaultStub (defaultBranchName : String) : Branch :=
  { Head := true, Name := defaultBranchName, IsMerged := false,
    IsProtected := false, RemoteHeadOid := "", Commits := [],
    PullRequests := [], State := BranchState.NotDeletable }

/-- The relabeled list `switchToDefaultBranchIfDeleted` builds once a switch
is needed: a synthesized minimal `NotDeletable` entry for the default branch
when it is absent from the loaded list, followed by every loaded entry with
`Head` set exactly on the default branch. -/
def relabelToDefault (branches : List Branch) (defaultBranchName : String) : List Branch :=
  (if branchNameExists defaultBranchName branches then []
   else [defaultStub defaultBranchName]) ++
  branches.map (fun b =>
    if b.Name = defaultBranchName then { b with Head := true }
    else { b with Head := false })

/-- Embedding of `switchToDefaultBranchIfDeleted` from `poi.go`.  `checkout` is the result
`connection.CheckoutBranch(defaultBranchName)` would produce; in dry-run mode
the call is skipped. -/
def switchToDefaultBranchIfDeleted (branches : List Branch) (defaultBranchName : String)
    (checkout : Except Unit String) (dryRun : Bool) : Except Unit (List Branch) :=
  let needsCheckout := branches.any (fun b => b.Head ∧ b.State = BranchState.Deletable)
  if ! needsCheckout then Except.ok branches
  else if dryRun then Except.ok (relabelToDefault branches defaultBranchName)
  else
    match checkout with
    | Except.error e => Except.error e
    | Except.ok _ => Except.ok (relabelToDefault branches defaultBranchName)

theorem countP_head_relabel (d : String) (l : List Branch) :
    (l.map (fun b => if b.Name = d then { b with Head := true }
      else { b with Head := false })).countP (fun b => b.Head) =
      l.countP (fun b => b.Name = d) := by
  induction l with
  | nil => rfl
  | cons b bs ih => by_cases hb : b.Name = d <;> simp [List.countP_cons, hb, ih]

theorem countP_name_eq_zero (d : String) (l : List Branch)
    (h : ∀ b ∈ l, b.Name ≠ d) : l.countP (fun b => b.Name = d) = 0 := by
  rw [List.countP_eq_zero]
  intro b hb
  simpa using h b hb

theorem countP_name_nodup (d : String) (l : List Branch)
    (hN : (l.map (fun b => b.Name)).Nodup) (hEx : ∃ b ∈ l, b.Name = d) :
    l.countP (fun b => b.Name = d) = 1 := by
  induction l with
  | nil => simp at hEx
  | cons b bs ih =>
    rw [List.map_cons, List.nodup_cons] at hN
    by_cases hb : b.Name = d
    · have hz : bs.countP (fun b => b.Name = d) = 0 := by
        apply countP_name_eq_zero
        intro x hx hxd
        exact hN.1 (by rw [← hb] at hxd; exact hxd ▸ List.mem_map_of_mem _ hx)
      simp [List.countP_cons, hb, hz]
    · have hEx' : ∃ x ∈ bs, x.Name = d := by
        rcases hEx with ⟨x, hx, hxd⟩
        rcases List.mem_cons.mp hx with rfl | hx'
        · exact absurd hxd hb
        · exact ⟨x, hx', hxd⟩
      simp [List.countP_cons, hb, ih hN.2 hEx']

/-- C6: whenever the fail-safe switch triggers (some loaded branch has
`Head = true` and computed state `Deletable`), the result — identical in
dry-run mode (checkout skipped) and in wet mode with a successful checkout —
has exactly one `Head = true` entry, that entry is the default branch, and
when the default branch was absent from the loaded list a minimal
`NotDeletable` entry for it is synthesized. -/
theorem switchToDefaultBranch_failsafe (branches : List Branch) (defaultBranchName : String)
    (hTrig : ∃ b ∈ branches, b.Head = true ∧ b.State = BranchState.Deletable)
    (hNodup : (branches.map (fun b => b.Name)).Nodup) :
    ∃ out : List Branch,
      (∀ checkout, switchToDefaultBranchIfDeleted branches defaultBranchName checkout true =
        Except.ok out) ∧
      (∀ s, switchToDefaultBranchIfDeleted branches defaultBranchName (Except.ok s) false =
        Except.ok out) ∧
      out.countP (fun b => b.Head) = 1 ∧
      (∀ b ∈ out, b.Head = true → b.Name = defaultBranchName) ∧
      (branchNameExists defaultBranchName branches = false →
        ∃ b ∈ out, b.Name = defaultBranchName ∧ b.Head = true ∧
          b.State = BranchState.NotDeletable) := by
  have hneed : (branches.any fun b => b.Head ∧ b.State = BranchState.Deletable) = true := by
    rcases hTrig with ⟨b, hb, h1, h2⟩
    exact List.any_eq_true.mpr ⟨b, hb, by simp [h1, h2]⟩
  refine ⟨relabelToDefault branches defaultBranchName, ?_, ?_, ?_, ?_, ?_⟩
  · intro checkout
    unfold switchToDefaultBranchIfDeleted
    rw [hneed]
    simp
  · intro s
    unfold switchToDefaultBranchIfDeleted
    rw [hneed]
    simp
  · unfold relabelToDefault
    by_cases hEx : branchNameExists defaultBranchName branches = true
    · rw [if_pos hEx, List.nil_append, countP_head_relabel]
      apply countP_name_nodup _ _ hNodup
      unfold branchNameExists at hEx
      rcases List.any_eq_true.mp hEx with ⟨b, hb, hbn⟩
      exact ⟨b, hb, by simpa using hbn⟩
    · rw [if_neg hEx, List.singleton_append, List.countP_cons, countP_head_relabel]
      have hz : branches.countP (fun b => b.Name = defaultBranchName) = 0 := by
        apply countP_name_eq_zero
        intro b hb hbd
        unfold branchNameExists at hEx
        exact hEx (List.any_eq_true.mpr ⟨b, hb, by simp [hbd]⟩)
      simp [hz, defaultStub]
  · intro b hb hbh
    unfold relabelToDefault at hb
    rcases List.mem_append.mp hb with hb | hb
    · by_cases hEx : branchNameExists defaultBranchName branches = true
      · rw [if_pos hEx] at hb; simp at hb
      · rw [if_neg hEx] at hb
        rw [List.mem_singleton.mp hb]
        rfl
    · rcases List.mem_map.mp hb with ⟨a, ha, rfl⟩
      by_cases hn : a.Name = defaultBranchName
      · simp [hn]
      · simp [hn] at hbh
  · intro hAbs
    refine ⟨defaultStub defaultBranchName, ?_, rfl, rfl, rfl⟩
    unfold relabelToDefault
    rw [hAbs]
    simp

/-- A head branch whose computed state is `Deletable`, for the C6 witness. -/
def brHeadDel : Branch :=
  { Head := true, Name := "issue1", IsMerged := true, IsProtected := false,
    RemoteHeadOid := "", Commits := ["a1"], PullRequests := [],
    State := BranchState.Deletable }

/-- Witness for C6: the checked-out deletable branch `issue1` with the default
branch `main` absent from the loaded list. -/
theorem switchToDefaultBranch_failsafe_witness :
    ∃ out : List Branch,
      (∀ checkout, switchToDefaultBranchIfDeleted [brHeadDel] "main" checkout true =
        Except.ok out) ∧
      (∀ s, switchToDefaultBranchIfDeleted [brHeadDel] "main" (Except.ok s) false =
        Except.ok out) ∧
      out.countP (fun b => b.Head) = 1 ∧
      (∀ b ∈ out, b.Head = true → b.Name = "main") ∧
      (branchNameExists "main" [brHeadDel] = false →
        ∃ b ∈ out, b.Name = "main" ∧ b.Head = true ∧
          b.State = BranchState.NotDeletable) :=
  switchToDefaultBranch_failsafe [brHeadDel] "main" (by decide) (by decide)

/-- Digit folding (`a.toNat - 48`): the value `strconv.Atoi` computes on a
non-empty all-digit string (Go's `Atoi` fails on 64-bit overflow, where
`getPRNumber` returns 0; PR numbers never reach that size). -/
def digitsToNat (ds : List Char) : Nat :=
  ds.foldl (fun acc c => acc * 10 + (c.toNat - 48)) 0

/-- Embedding of `getPRNumber` from `poi.go`: the number captured by `^refs/pull/(\d+)`
from the branch's merge config, and 0 when the config does not carry a pull
ref. -/
def getPRNumber (mergeConfig : String) : Nat :=
  let cs := mergeConfig.toList
  if "refs/pull/".toList.isPrefixOf cs then
    let digits := (cs.drop 10).takeWhile (fun c => c.isDigit)
    if digits = [] then 0 else digitsToNat digits
  else 0

/-- The `prNumbers` map of `applyPullRequest`, as an association list in
branch order: for every non-detached branch whose `branch.<name>.merge` config
carries an explicit pull ref, its name mapped to that PR number. -/
def buildPrNumbers (getConfig : String → Except Unit String) : List Branch → List (String × Nat)
  | [] => []
  | b :: rest =>
    if b.IsDetached then buildPrNumbers getConfig rest
    else
      let n := getPRNumber (orEmpty (getConfig ("branch." ++ b.Name ++ ".merge")))
      if 0 < n then (b.Name, n) :: buildPrNumbers getConfig rest
      else buildPrNumbers getConfig rest

/-- Go map read `prNumbers[branchName]`: the mapped number, or the zero value
0 when the branch has no entry. -/
def lookupPrNumber (prNumbers : List (String × Nat)) (name : String) : Nat :=
  match prNumbers.find? (fun p => p.1 = name) with
  | some p => p.2
  | none => 0

/-- The `prNumberExists` closure of `findMatchedPullRequest`: whether some
branch's tracking config claims this PR number. -/
def prNumberValueExists (prNumbers : List (String × Nat)) (n : Nat) : Bool :=
  prNumbers.any (fun p => p.2 = n)

/-- The matching loop of `findMatchedPullRequest`: skip a PR whose number is
already in the results (`prExists`); a PR whose number is claimed by the
explicit map is attached only when this branch's mapped number equals it;
otherwise a PR is attached when its head-ref name equals the branch name. -/
def fmprLoop (branchName : String) (prNumbers : List (String × Nat)) :
    List PullRequest → List PullRequest → List PullRequest
  | [], results => results
  | pr :: rest, results =>
    if results.any (fun r => r.Number = pr.Number) then
      fmprLoop branchName prNumbers rest results
    else if prNumberValueExists prNumbers pr.Number then
      (if pr.Number = lookupPrNumber prNumbers branchName then
        fmprLoop branchName prNumbers rest (results ++ [pr])
      else fmprLoop branchName prNumbers rest results)
    else if pr.Name = branchName then
      fmprLoop branchName prNumbers rest (results ++ [pr])
    else fmprLoop branchName prNumbers rest results

/-- Embedding of `findMatchedPullRequest` from `poi.go`. -/
def findMatchedPullRequest (branchName : String) (prs : List PullRequest)
    (prNumbers : List (String × Nat)) : List PullRequest :=
  fmprLoop branchName prNumbers prs []

/-- Insertion step of the ascending-by-number sort `applyPullRequest` applies
to each branch's matched PRs (`sort.Slice` is unstable; ties are in
unspecified order, and no claim depends on tie order). -/
def insertByNumber (pr : PullRequest) : List PullRequest → List PullRequest
  | [] => [pr]
  | q :: qs => if pr.Number < q.Number then pr :: q :: qs else q :: insertByNumber pr qs

/-- Ascending-by-number sort of a branch's matched PRs. -/
def sortByNumber : List PullRequest → List PullRequest
  | [] => []
  | pr :: prs => insertByNumber pr (sortByNumber prs)

/-- Embedding of `applyPullRequest` from `poi.go`: build the explicit name-to-number map
from tracking config, then attach to every branch its matched PRs sorted by
number.  `getConfig` stands for `connection.GetConfig` (errors swallowed). -/
def applyPullRequest (branches : List Branch) (prs : List PullRequest)
    (getConfig : String → Except Unit String) : List Branch :=
  let prNumbers := buildPrNumbers getConfig branches
  branches.map (fun b =>
    { b with PullRequests := sortByNumber (findMatchedPullRequest b.Name prs prNumbers) })

theorem mem_insertByNumber (pr q : PullRequest) (l : List PullRequest) :
    q ∈ insertByNumber pr l ↔ q = pr ∨ q ∈ l := by
  induction l with
  | nil => simp [insertByNumber]
  | cons r rs ih =>
    by_cases hlt : pr.Number < r.Number
    · simp [insertByNumber, hlt]
    · simp [insertByNumber, hlt, ih]
      tauto

theorem mem_sortByNumber (q : PullRequest) (l : List PullRequest) :
    q ∈ sortByNumber l ↔ q ∈ l := by
  induction l with
  | nil => simp [sortByNumber]
  | cons r rs ih => simp [sortByNumber, mem_insertByNumber, ih]

theorem fmprLoop_mem (branchName : String) (prNumbers : List (String × Nat)) :
    ∀ (prs acc : List PullRequest) (p : PullRequest),
      p ∈ fmprLoop branchName prNumbers prs acc →
      p ∈ acc ∨ (p ∈ prs ∧
        ((prNumberValueExists prNumbers p.Number = true ∧
            p.Number = lookupPrNumber prNumbers branchName) ∨
          (prNumberValueExists prNumbers p.Number = false ∧ p.Name = branchName))) := by
  intro prs
  induction prs with
  | nil => intro acc p hp; exact Or.inl hp
  | cons pr rest ih =>
    intro acc p hp
    rw [fmprLoop] at hp
    by_cases h1 : (acc.any fun r => r.Number = pr.Number) = true
    · rw [if_pos h1] at hp
      rcases ih acc p hp with h | ⟨hm, hc⟩
      · exact Or.inl h
      · exact Or.inr ⟨List.mem_cons_of_mem pr hm, hc⟩
    · rw [if_neg h1] at hp
      by_cases h2 : prNumberValueExists prNumbers pr.Number = true
      · rw [if_pos h2] at hp
        by_cases h3 : pr.Number = lookupPrNumber prNumbers branchName
        · rw [if_pos h3] at hp
          rcases ih (acc ++ [pr]) p hp with h | ⟨hm, hc⟩
          · rcases List.mem_append.mp h with h | h
            · exact Or.inl h
            · rw [List.mem_singleton.mp h]
              exact Or.inr ⟨List.mem_cons_self pr rest, Or.inl ⟨h2, h3⟩⟩
          · exact Or.inr ⟨List.mem_cons_of_mem pr hm, hc⟩
        · rw [if_neg h3] at hp
          rcases ih acc p hp with h | ⟨hm, hc⟩
          · exact Or.inl h
          · exact Or.inr ⟨List.mem_cons_of_mem pr hm, hc⟩
      · rw [if_neg h2] at hp
        by_cases h4 : pr.Name = branchName
        · rw [if_pos h4] at hp
          rcases ih (acc ++ [pr]) p hp with h | ⟨hm, hc⟩
          · rcases List.mem_append.mp h with h | h
            · exact Or.inl h
            · rw [List.mem_singleton.mp h]
              exact Or.inr ⟨List.mem_cons_self pr rest,
                Or.inr ⟨by simpa using h2, h4⟩⟩
          · exact Or.inr ⟨List.mem_cons_of_mem pr hm, hc⟩
        · rw [if_neg h4] at hp
          rcases ih acc p hp with h | ⟨hm, hc⟩
          · exact Or.inl h
          · exact Or.inr ⟨List.mem_cons_of_mem pr hm, hc⟩

theorem lookupPrNumber_mem (prNumbers : List (String × Nat)) (name : String)
    (hn : lookupPrNumber prNumbers name ≠ 0) :
    (name, lookupPrNumber prNumbers name) ∈ prNumbers := by
  unfold lookupPrNumber at hn ⊢
  cases hf : prNumbers.find? (fun p => p.1 = name) with
  | none =>
    rw [hf] at hn
    simp at hn
  | some p =>
    dsimp only
    have hmem := List.mem_of_find?_eq_some hf
    have hp : p.1 = name := by simpa using List.find?_some hf
    rw [show (name, p.2) = p from by rw [← hp]]
    exact hmem

theorem buildPrNumbers_pos (getConfig : String → Except Unit String) :
    ∀ (branches : List Branch) (p : String × Nat),
      p ∈ buildPrNumbers getConfig branches → 0 < p.2 := by
  intro branches
  induction branches with
  | nil => intro p hp; simp [buildPrNumbers] at hp
  | cons b rest ih =>
    intro p hp
    rw [buildPrNumbers] at hp
    by_cases hd : b.IsDetached = true
    · exact ih p (by rwa [if_pos hd] at hp)
    · rw [if_neg hd] at hp
      by_cases hpos :
          0 < getPRNumber (orEmpty (getConfig ("branch." ++ b.Name ++ ".merge")))
      · rw [if_pos hpos] at hp
        rcases List.mem_cons.mp hp with rfl | hp
        · exact hpos
        · exact ih p hp
      · rw [if_neg hpos] at hp
        exact ih p hp

theorem prNumberValueExists_pos (prNumbers : List (String × Nat)) (n : Nat)
    (hpos : ∀ p ∈ prNumbers, 0 < p.2)
    (h : prNumberValueExists prNumbers n = true) : 0 < n := by
  unfold prNumberValueExists at h
  rcases List.any_eq_true.mp h with ⟨p, hp, hpn⟩
  have := hpos p hp
  rw [of_decide_eq_true hpn] at this
  exact this

/-- C5 (amended): with unique branch names, an explicit name-to-number map
whose claimed numbers are pairwise distinct, and fetched PRs whose numbers
determine their head-ref names, `applyPullRequest` attaches no PR number to
two branches with different names. -/
theorem applyPullRequest_partial_injection (branches : List Branch) (prs : List PullRequest)
    (getConfig : String → Except Unit String)
    (_hNames : (branches.map (fun b => b.Name)).Nodup)
    (hVals : ((buildPrNumbers getConfig branches).map (fun p => p.2)).Nodup)
    (hPrs : ∀ p ∈ prs, ∀ q ∈ prs, p.Number = q.Number → p.Name = q.Name) :
    ∀ b1 ∈ applyPullRequest branches prs getConfig,
      ∀ b2 ∈ applyPullRequest branches prs getConfig,
      b1.Name ≠ b2.Name →
      ∀ p ∈ b1.PullRequests, ∀ q ∈ b2.PullRequests, p.Number ≠ q.Number := by
  intro b1 hb1 b2 hb2 hne p hp q hq heq
  unfold applyPullRequest at hb1 hb2
  rcases List.mem_map.mp hb1 with ⟨a1, ha1, rfl⟩
  rcases List.mem_map.mp hb2 with ⟨a2, ha2, rfl⟩
  simp only at hp hq hne
  have hp' := (mem_sortByNumber p _).mp hp
  have hq' := (mem_sortByNumber q _).mp hq
  unfold findMatchedPullRequest at hp' hq'
  rcases fmprLoop_mem a1.Name (buildPrNumbers getConfig branches) prs [] p hp' with
    h | ⟨hpmem, hpc⟩
  · simp at h
  rcases fmprLoop_mem a2.Name (buildPrNumbers getConfig branches) prs [] q hq' with
    h | ⟨hqmem, hqc⟩
  · simp at h
  by_cases hve : prNumberValueExists (buildPrNumbers getConfig branches) p.Number = true
  · rcases hpc with ⟨-, hpl⟩ | ⟨hpf, -⟩
    · rcases hqc with ⟨-, hql⟩ | ⟨hqf, -⟩
      · have hNpos : 0 < p.Number :=
          prNumberValueExists_pos _ _ (fun r hr => buildPrNumbers_pos getConfig branches r hr) hve
        have hm1 : (a1.Name, p.Number) ∈ buildPrNumbers getConfig branches := by
          have := lookupPrNumber_mem (buildPrNumbers getConfig branches) a1.Name
            (by rw [← hpl]; omega)
          rwa [← hpl] at this
        have hm2 : (a2.Name, q.Number) ∈ buildPrNumbers getConfig branches := by
          have := lookupPrNumber_mem (buildPrNumbers getConfig branches) a2.Name
            (by rw [← hql]; rw [heq] at hNpos; omega)
          rwa [← hql] at this
        have := List.inj_on_of_nodup_map hVals hm1 hm2 (by simpa using heq)
        exact hne (congrArg Prod.fst this)
      · rw [heq] at hve
        rw [hve] at hqf
        exact absurd hqf (by simp)
    · rw [hve] at hpf
      exact absurd hpf (by simp)
  · have hve' : prNumberValueExists (buildPrNumbers getConfig branches) p.Number = false := by
      simpa using hve
    rcases hpc with ⟨hpf, -⟩ | ⟨-, hpn⟩
    · exact absurd hpf hve
    · rcases hqc with ⟨hqf, -⟩ | ⟨-, hqn⟩
      · rw [heq] at hve'
        rw [hve'] at hqf
        exact absurd hqf (by simp)
      · have := hPrs p hpmem q hqmem heq
        rw [hpn, hqn] at this
        exact hne this

/-- A plain loaded branch with the given name, for C5 inputs. -/
def cexBranch (name : String) : Branch :=
  { Head := false, Name := name, IsMerged := false, IsProtected := false,
    RemoteHeadOid := "", Commits := [], PullRequests := [],
    State := BranchState.Unknown }

/-- A merged PR numbered 7 whose head-ref name matches neither branch, for the
C5 counterexample. -/
def cexPr7 : PullRequest :=
  { Name := "other", State := PullRequestState.Merged, IsDraft := false,
    Number := 7, Commits := [], Url := "", Author := "" }

/-- Counterexample to C5 as stated: two branches with unique names whose
tracking configs both claim PR number 7; `applyPullRequest` attaches the
number-7 PR to both branches, so the partial-injection property fails. -/
theorem applyPullRequest_counterexample :
    ((([cexBranch "issue1", cexBranch "issue2"] : List Branch).map
        (fun b => b.Name)).Nodup) ∧
      ¬ (∀ b1 ∈ applyPullRequest [cexBranch "issue1", cexBranch "issue2"] [cexPr7]
            (fun _ => Except.ok "refs/pull/7"),
          ∀ b2 ∈ applyPullRequest [cexBranch "issue1", cexBranch "issue2"] [cexPr7]
            (fun _ => Except.ok "refs/pull/7"),
          b1.Name ≠ b2.Name →
          ∀ p ∈ b1.PullRequests, ∀ q ∈ b2.PullRequests, p.Number ≠ q.Number) := by
  constructor
  · decide
  · decide

/-- A merged PR numbered 1 matching branch `issue1` by name, for the C5
witness. -/
def prIssue1 : PullRequest :=
  { Name := "issue1", State := PullRequestState.Merged, IsDraft := false,
    Number := 1, Commits := ["a1"], Url := "", Author := "" }

/-- A merged PR numbered 2 matching branch `issue2` by name, for the C5
witness. -/
def prIssue2 : PullRequest :=
  { Name := "issue2", State := PullRequestState.Merged, IsDraft := false,
    Number := 2, Commits := ["a2"], Url := "", Author := "" }

/-- Witness for C5 at concrete input (empty explicit map, two name-matched
PRs attached to the two branches). -/
theorem applyPullRequest_partial_injection_witness :
    prIssue1.Number ≠ prIssue2.Number :=
  applyPullRequest_partial_injection [cexBranch "issue1", cexBranch "issue2"]
    [prIssue1, prIssue2] (fun _ => Except.error ()) (by decide) (by decide) (by decide)
    { cexBranch "issue1" with PullRequests := [prIssue1] } (by decide)
    { cexBranch "issue2" with PullRequests := [prIssue2] } (by decide)
    (by decide) prIssue1 (by decide) prIssue2 (by decide)

/-- One line of `extractMergedBranchNames` (`^[ *]+(.+)` with capture): a line
starting with spaces/stars yields the text after the leading run — or, when
the line is nothing but spaces/stars, the regex backtracks and captures the
final such character. -/
def extractMergedBranchName (name : String) : Option String :=
  let cs := name.toList
  let k := (cs.takeWhile (fun c => c = ' ' ∨ c = '*')).length
  if k = 0 then none
  else if k < cs.length then some (String.mk (cs.drop k))
  else some (String.mk (cs.drop (k - 1)))

/-- Embedding of `extractMergedBranchNames` from `poi.go`. -/
def extractMergedBranchNames (mergedNames : List String) : List String :=
  mergedNames.filterMap extractMergedBranchName

/-- Embedding of `applyMerged` from `poi.go`. -/
def applyMerged (branches : List Branch) (mergedNames : List String) : List Branch :=
  branches.map (fun b => { b with IsMerged := nameExists b.Name mergedNames })

/-- Embedding of `applyProtected` from `poi.go`: mark a branch protected when the first
line of its `gh-poi-protected` config is `"true"`; config lookup failures are
swallowed (treated as unprotected). -/
def applyProtected (branches : List Branch) (conn : Conn) : List Branch :=
  branches.map (fun b =>
    let config := orEmpty (conn.GetConfig ("branch." ++ b.Name ++ ".gh-poi-protected"))
    let splitConfig := splitLines config
    if 0 < splitConfig.length ∧ splitConfig.headD "" = "true" then
      { b with IsProtected := true }
    else b)

/-- Embedding of `strings.Fields`: split on whitespace, dropping empty fields. -/
def splitFields (s : String) : List String :=
  ((splitChars (fun c => c = ' ' ∨ c = '\t' ∨ c = '\n' ∨ c = '\r') s.toList).map
    (fun l => String.mk l)).filter (fun x => x ≠ "")

/-- The per-branch body of `applyCommits` from `poi.go`: skip the default
branch and detached heads; resolve the remote head oid (primary lookup, or on
its failure the `branch.<name>.remote` config plus `ls-remote` fallback,
further failures swallowed); then read the log and trim it.  A failing log
read or ref lookup aborts.  (The Go code indexes `splitLines(...)[0]`, which
would panic on empty output; modelled with an empty-string default.) -/
def applyCommitBranch (remote : Remote) (defaultBranchName : String) (conn : Conn)
    (b : Branch) : Except Unit Branch :=
  if b.Name = defaultBranchName ∨ b.IsDetached then Except.ok { b with Commits := [] }
  else
    let b1 :=
      match conn.GetRemoteHeadOid remote.Name b.Name with
      | Except.ok remoteHeadOid =>
        { b with RemoteHeadOid := (splitLines remoteHeadOid).headD "" }
      | Except.error _ =>
        match splitLines (orEmpty (conn.GetConfig ("branch." ++ b.Name ++ ".remote"))) with
        | [] => b
        | remoteUrl :: _ =>
          match conn.GetLsRemoteHeadOid remoteUrl b.Name with
          | Except.ok result =>
            match splitFields result with
            | [] => b
            | oid :: _ => { b with RemoteHeadOid := oid }
          | Except.error _ => b
    match conn.GetLog b.Name with
    | Except.error e => Except.error e
    | Except.ok oids =>
      match (trimBranch conn.GetAssociatedRefNames (splitLines oids) b1.RemoteHeadOid
          b1.IsMerged b1.Name defaultBranchName).1 with
      | Except.error e => Except.error e
      | Except.ok trimmedOids => Except.ok { b1 with Commits := trimmedOids }

/-- Embedding of `applyCommits` from `poi.go`: the per-branch body over the list, aborting
on the first error. -/
def applyCommits (remote : Remote) (branches : List Branch) (defaultBranchName : String)
    (conn : Conn) : Except Unit (List Branch) :=
  match branches with
  | [] => Except.ok []
  | b :: rest =>
    match applyCommitBranch remote defaultBranchName conn b with
    | Except.error e => Except.error e
    | Except.ok b' =>
      match applyCommits remote rest defaultBranchName conn with
      | Except.error e => Except.error e
      | Except.ok rest' => Except.ok (b' :: rest')

/-- Embedding of `toUncommittedChange` from `poi.go`: the two status bytes and the path of
each `git status` line (Go indexes the raw bytes and would panic on a line
shorter than the fixed layout; total char operations model that layout). -/
def toUncommittedChange (changes : List String) : List UncommittedChange :=
  changes.map (fun change =>
    { X := String.mk (change.toList.take 1)
      Y := String.mk ((change.toList.drop 1).take 1)
      Path := String.mk (change.toList.drop 3) })

/-- Embedding of `checkDeletion` from `poi.go`. -/
def checkDeletion (branches : List Branch) (uncommittedChanges : List UncommittedChange) :
    List Branch :=
  branches.map (fun b => { b with State := getDeleteStatus b uncommittedChanges })

/-- The PR-fetch loop of `loadBranches`: one `GetPullRequests` call per query
block, concatenating the decoded records, aborting on the first error. -/
def fetchPullRequests (conn : Conn) (hostname orgs repos : String) :
    List String → Except Unit (List PullRequest)
  | [] => Except.ok []
  | q :: rest =>
    match conn.GetPullRequests hostname orgs repos q with
    | Except.error e => Except.error e
    | Except.ok pr =>
      match fetchPullRequests conn hostname orgs repos rest with
      | Except.error e => Except.error e
      | Except.ok more => Except.ok (pr ++ more)

/-- Embedding of `loadBranches` from `poi.go`. -/
def loadBranches (remote : Remote) (defaultBranchName : String) (repoNames : List String)
    (conn : Conn) : Except Unit (List Branch) :=
  match conn.GetBranchNames with
  | Except.error e => Except.error e
  | Except.ok names =>
    let branches := toBranch (splitLines names)
    match conn.GetMergedBranchNames remote.Name defaultBranchName with
    | Except.error e => Except.error e
    | Except.ok mergedNames =>
      let branches := applyMerged branches (extractMergedBranchNames (splitLines mergedNames))
      let branches := applyProtected branches conn
      match applyCommits remote branches defaultBranchName conn with
      | Except.error e => Except.error e
      | Except.ok branches =>
        match fetchPullRequests conn remote.Hostname (getQueryOrgs repoNames)
            (getQueryRepos repoNames) (getQueryHashes branches) with
        | Except.error e => Except.error e
        | Except.ok prs => Except.ok (applyPullRequest branches prs conn.GetConfig)

/-- The pipeline of `GetBranches` up to and including `checkDeletion`: repo
names and default branch, repo check, branch loading, uncommitted changes and
classification; the fail-safe switch and sort follow. -/
def classifyStage (remote : Remote) (conn : Conn) : Except Unit (List Branch × String) :=
  match conn.GetRepoNames remote.Hostname remote.RepoName with
  | Except.error e => Except.error e
  | Except.ok (repoNames, defaultBranchName) =>
    match conn.CheckRepos remote.Hostname repoNames with
    | Except.error e => Except.error e
    | Except.ok _ =>
      match loadBranches remote defaultBranchName repoNames conn with
      | Except.error e => Except.error e
      | Except.ok branches =>
        match conn.GetUncommittedChanges with
        | Except.error e => Except.error e
        | Except.ok changes =>
          Except.ok (checkDeletion branches (toUncommittedChange (splitLines changes)),
            defaultBranchName)

/-- Insertion step of the by-name sort ending `GetBranches` (`sort.Slice` is
unstable; ties between equal names are in unspecified order and no claim
depends on them). -/
def insertByName (b : Branch) : List Branch → List Branch
  | [] => [b]
  | c :: cs => if b.Name < c.Name then b :: c :: cs else c :: insertByName b cs

/-- Ascending-by-name sort of the final branch list. -/
def sortByName : List Branch → List Branch
  | [] => []
  | b :: bs => insertByName b (sortByName bs)

/-- Embedding of `GetBranches` from `poi.go`: classification pipeline, fail-safe switch,
sorted result. -/
def GetBranches (remote : Remote) (conn : Conn) (dryRun : Bool) :
    Except Unit (List Branch) :=
  match classifyStage remote conn with
  | Except.error e => Except.error e
  | Except.ok (branches, defaultBranchName) =>
    match switchToDefaultBranchIfDeleted branches defaultBranchName
        (conn.CheckoutBranch defaultBranchName) dryRun with
    | Except.error e => Except.error e
    | Except.ok branches => Except.ok (sortByName branches)

/-- C7: when the classification pipeline succeeds, the fail-safe switch
triggers (the checked-out branch is `Deletable`), dry-run is off and the
checkout of the default branch fails, the whole `GetBranches` call returns an
error — no partial branch list. -/
theorem GetBranches_checkout_failure (remote : Remote) (conn : Conn)
    (branches : List Branch) (defaultBranchName : String)
    (hstage : classifyStage remote conn = Except.ok (branches, defaultBranchName))
    (hTrig : ∃ b ∈ branches, b.Head = true ∧ b.State = BranchState.Deletable)
    (hfail : conn.CheckoutBranch defaultBranchName = Except.error ()) :
    GetBranches remote conn false = Except.error () := by
  have hneed : (branches.any fun b => b.Head ∧ b.State = BranchState.Deletable) = true := by
    rcases hTrig with ⟨b, hb, h1, h2⟩
    exact List.any_eq_true.mpr ⟨b, hb, by simp [h1, h2]⟩
  unfold GetBranches
  rw [hstage]
  dsimp only
  unfold switchToDefaultBranchIfDeleted
  rw [hneed, hfail]
  simp

/-- The remote used by the C7 witness. -/
def remoteC7 : Remote :=
  { Name := "origin", Hostname := "github.com", RepoName := "owner/repo" }

/-- The merged PR covering commit `oid1`, used by the C7 witness. -/
def prC7 : PullRequest :=
  { Name := "issue1", State := PullRequestState.Merged, IsDraft := false,
    Number := 1, Commits := ["oid1"], Url := "", Author := "" }

/-- A connection on which the whole classification pipeline succeeds with the
checked-out branch deletable, but checking out the default branch fails. -/
def connC7 : Conn where
  CheckRepos := fun _ _ => Except.ok ()
  GetRepoNames := fun _ _ => Except.ok (["owner/repo"], "main")
  GetBranchNames := Except.ok "*:issue1"
  GetMergedBranchNames := fun _ _ => Except.ok ""
  GetRemoteHeadOid := fun _ _ => Except.ok "oid1"
  GetLsRemoteHeadOid := fun _ _ => Except.ok ""
  GetLog := fun _ => Except.ok "oid1"
  GetAssociatedRefNames := fun _ => Except.ok ""
  GetPullRequests := fun _ _ _ _ => Except.ok [prC7]
  GetUncommittedChanges := Except.ok ""
  GetConfig := fun _ => Except.ok ""
  CheckoutBranch := fun _ => Except.error ()
  DeleteBranches := fun _ => Except.ok ""

/-- The classified branch the C7 pipeline produces. -/
def branchC7 : Branch :=
  { Head := true, Name := "issue1", IsMerged := false, IsProtected := false,
    RemoteHeadOid := "oid1", Commits := ["oid1"], PullRequests := [prC7],
    State := BranchState.Deletable }

/-- Witness for C7: on `connC7` the pipeline reaches the fail-safe switch with
a deletable head branch, the checkout fails, and `GetBranches` errors. -/
theorem GetBranches_checkout_failure_witness :
    GetBranches remoteC7 connC7 false = Except.error () :=
  GetBranches_checkout_failure remoteC7 connC7 [branchC7] "main" (by decide) (by decide) rfl

end GhPoi
